import Mathlib

/-!
Verification of the parallel process library (colinc86/parallel).

The Go sources are shallowly embedded: float64 values are modelled as
rationals (every concrete input used below is exactly representable in
binary floating point and no rounding occurs in the traced computations),
machine integers as Int/Nat, and the concurrent processes as schedule
driven interleaving machines whose atomic steps are exactly the atomic
operations of the source (safeInt methods under a mutex, atomic.LoadInt64,
atomic.AddInt64, atomic.StoreInt64).
-/

namespace Parallel

/-- Embedding of struct ControllerConfiguration
(src/controllerconfiguration.go): the PID coefficients Kp, Ki, Kd and the
two response coefficients ErrorResponse and OutputResponse. -/
structure ControllerConfiguration where
  kp : ℚ
  ki : ℚ
  kd : ℚ
  errorResponse : ℚ
  outputResponse : ℚ
deriving DecidableEq

/-- Embedding of struct controller (src/unnamed/part_009, first document,
the variant whose method next(input float64) (float64, float64) is the one
called by src/variableprocess.go): previousError, totalError,
previousOutput, cpuCount and the configuration. -/
structure Controller where
  previousError : ℚ
  totalError : ℚ
  previousOutput : ℚ
  cpuCount : ℤ
  configuration : ControllerConfiguration
deriving DecidableEq

/-- Transcription of controller.next (src/unnamed/part_009 lines 25-41):
  e := 1.0 - (input / float64(c.cpuCount))
  e = ErrorResponse * e + (1.0 - ErrorResponse) * previousError
  i := totalError + e
  d := e - previousError
  u := Kp*e + Ki*i + Kd*d
  u = OutputResponse * u + (OutputResponse - 1) * previousOutput
  previousError = e; totalError = i; previousOutput = u
  return u, e
Returns (u, e, updated controller). runtime.NumCPU() is at least 1, so the
division by cpuCount is an ordinary division. -/
def Controller.next (c : Controller) (input : ℚ) : ℚ × ℚ × Controller :=
  let e0 : ℚ := 1 - input / (c.cpuCount : ℚ)
  let e : ℚ := c.configuration.errorResponse * e0 +
    (1 - c.configuration.errorResponse) * c.previousError
  let i : ℚ := c.totalError + e
  let d : ℚ := e - c.previousError
  let u0 : ℚ := c.configuration.kp * e + c.configuration.ki * i +
    c.configuration.kd * d
  let u : ℚ := c.configuration.outputResponse * u0 +
    (c.configuration.outputResponse - 1) * c.previousOutput
  (u, e, { c with previousError := e, totalError := i, previousOutput := u })

/-- Controller step exactly as the specification words it (spec.md 4.C):
identical to Controller.next except that the output filter is
  u_out = u_response * u_raw + (1 - u_response) * prev_output.
This definition follows the words of the spec and exists only to be
compared with Controller.next, which is transcribed from the code. -/
def Controller.nextSpecStated (c : Controller) (input : ℚ) : ℚ × ℚ × Controller :=
  let e0 : ℚ := 1 - input / (c.cpuCount : ℚ)
  let e : ℚ := c.configuration.errorResponse * e0 +
    (1 - c.configuration.errorResponse) * c.previousError
  let i : ℚ := c.totalError + e
  let d : ℚ := e - c.previousError
  let u0 : ℚ := c.configuration.kp * e + c.configuration.ki * i +
    c.configuration.kd * d
  let u : ℚ := c.configuration.outputResponse * u0 +
    (1 - c.configuration.outputResponse) * c.previousOutput
  (u, e, { c with previousError := e, totalError := i, previousOutput := u })

/-- Transcription of controller.reset (src/unnamed/part_009 lines 44-48):
sets previousError and totalError to 0 and refreshes cpuCount with
runtime.NumCPU(), passed here as newCpuCount. The field previousOutput is
not touched by the source. -/
def Controller.reset (c : Controller) (newCpuCount : ℤ) : Controller :=
  { c with previousError := 0, totalError := 0, cpuCount := newCpuCount }

/-- Result of a Go float64 operation: either a finite value or one of the
IEEE-754 non-finite values produced by dividing by zero. -/
inductive GoFloat where
  | finite (q : ℚ)
  | posInf
  | negInf
  | nan
deriving DecidableEq

/-- Go float64 division x / y, including the IEEE-754 behaviour when
y = 0: 0/0 is NaN and x/0 for x nonzero is a signed infinity. -/
def goDiv (x y : ℚ) : GoFloat :=
  if y = 0 then
    if x = 0 then GoFloat.nan
    else if 0 < x then GoFloat.posInf
    else GoFloat.negInf
  else GoFloat.finite (x / y)

/-- CLOCKS_PER_SEC, the time.h constant used by src/reporter.go. -/
def clocksPerSec : ℚ := 1000000

/-- Embedding of struct reporter (src/reporter.go): the wall-clock time and
the C.clock() tick recorded at the previous sample. -/
structure Reporter where
  lastTime : ℚ
  lastTick : ℚ
deriving DecidableEq

/-- Transcription of reporter.usage (src/reporter.go lines 29-40), with the
sampled C.clock() and time.Now() values passed in as nowClock and
nowActual:
  clockSeconds := float64(nowClock - r.lastTick) / float64(C.CLOCKS_PER_SEC)
  actualSeconds := nowActual.Sub(r.lastTime).Seconds()
  return clockSeconds / actualSeconds, actualSeconds
The final division is unguarded in the source, so it is modelled with
goDiv, which records the IEEE-754 result when actualSeconds = 0. -/
def Reporter.usage (r : Reporter) (nowClock nowActual : ℚ) :
    (GoFloat × ℚ) × Reporter :=
  let clockSeconds : ℚ := (nowClock - r.lastTick) / clocksPerSec
  let actualSeconds : ℚ := nowActual - r.lastTime
  ((goDiv clockSeconds actualSeconds, actualSeconds),
    { lastTime := nowActual, lastTick := nowClock })

/-- Transcription of the loop of SyncedProcess.runRoutine
(src/syncedprocess.go lines 53-61) run by a single routine. The parameter
i is the claim returned by the latest nextCount() call; nextCount
increments count and returns the new value. The list collects the indices
passed to the operation, namely i - 1 for each claim i < iterations. -/
def syncedLoop (iterations : ℕ) (i : ℕ) : List ℕ :=
  if h : i < iterations then (i - 1) :: syncedLoop iterations (i + 1) else []
termination_by iterations - i
decreasing_by omega

/-- SyncedProcess.Execute with numRoutines = 1 (src/syncedprocess.go lines
40-49): count starts at 0, so the first nextCount() claim is 1; returns
the indices passed to the operation, in order. -/
def syncedExecuteSingle (iterations : ℕ) : List ℕ :=
  syncedLoop iterations 1

/-- Phase of a goroutine running FixedProcess.runRoutine
(src/fixedprocess.go lines 51-59). The routine first reads the shared
counter with count.get() without incrementing it, then loops: while its
claim i is below iterations it invokes operation(i) and claims
i = count.add(1). -/
inductive FPhase where
  | start
  | running (i : ℕ)
  | exited
deriving DecidableEq

/-- State of an interleaved execution of FixedProcess.Execute
(src/fixedprocess.go lines 33-41): the shared safeInt counter, the phase
of each goroutine, the sequence of indices handed out by the counter
(dispLog, recorded inside the atomic get and add operations) and the
sequence of indices passed to the operation (opLog). -/
structure FPState where
  counter : ℕ
  workers : List FPhase
  dispLog : List ℕ
  opLog : List ℕ
deriving DecidableEq

/-- One atomic step of worker w of FixedProcess when its phase is ph. A
start step is the atomic count.get(); a running step with i < N performs
operation(i) followed by the atomic count.add(1) (the operation itself
touches no shared engine state, so it is folded into the step that
follows it); a running step with i at or past N exits the loop. -/
def fpPhaseStep (N : ℕ) (s : FPState) (w : ℕ) (ph : FPhase) : FPState :=
  match ph with
  | FPhase.start =>
      { s with workers := s.workers.set w (FPhase.running s.counter),
               dispLog := s.dispLog ++ [s.counter] }
  | FPhase.running i =>
      if i < N then
        { s with opLog := s.opLog ++ [i],
                 counter := s.counter + 1,
                 workers := s.workers.set w (FPhase.running (s.counter + 1)),
                 dispLog := s.dispLog ++ [s.counter + 1] }
      else
        { s with workers := s.workers.set w FPhase.exited }
  | FPhase.exited => s

/-- One scheduled step of FixedProcess: worker w moves, every other worker
is unchanged; an index past the worker list does nothing. -/
def fpStep (N : ℕ) (s : FPState) (w : ℕ) : FPState :=
  match s.workers[w]? with
  | none => s
  | some ph => fpPhaseStep N s w ph

/-- Initial state of FixedProcess.Execute (src/fixedprocess.go lines
33-41): the counter is reset to 0 and numRoutines goroutines are spawned,
each about to perform its initial count.get(). -/
def fpInit (numRoutines : ℕ) : FPState :=
  { counter := 0, workers := List.replicate numRoutines FPhase.start,
    dispLog := [], opLog := [] }

/-- Run FixedProcess.Execute under an explicit schedule: a list of worker
indices, each naming the goroutine that performs the next atomic step. -/
def fpRun (N numRoutines : ℕ) (sched : List ℕ) : FPState :=
  sched.foldl (fpStep N) (fpInit numRoutines)

/-- Phase of a goroutine running VariableProcess.runRoutine
(src/variableprocess.go lines 203-221), one constructor per point between
two atomic accesses of the source: the initial iteration.get(), the loop
check on the local claim i, the operation call, the atomic load of
numToRemove, the atomic load of numRoutines, the two atomic decrements of
the exit branch, the atomic decrement of the absorb branch, and the
claiming iteration.add(1). -/
inductive WPhase where
  | initGet
  | checkLoop (i : ℕ)
  | atOp (i : ℕ)
  | loadRemove (i : ℕ)
  | checkRoutines (i : ℕ)
  | decRemoveExit (i : ℕ)
  | decRoutinesExit (i : ℕ)
  | decRemoveStay (i : ℕ)
  | claimNext (i : ℕ)
  | exited
deriving DecidableEq

/-- State of an interleaved execution of VariableProcess.Execute
(src/variableprocess.go): the shared safeInt iteration counter, the
int64 fields numRoutines and numToRemove accessed through sync/atomic,
the phase of every goroutine spawned so far, the sequence of indices
handed out by the counter and the sequence of indices passed to the
operation. -/
structure VPState where
  iteration : ℕ
  numRoutines : ℤ
  numToRemove : ℤ
  workers : List WPhase
  dispLog : List ℕ
  opLog : List ℕ
deriving DecidableEq

/-- One atomic step of worker w of VariableProcess when its phase is ph,
transcribed from src/variableprocess.go lines 203-221:
  i := p.iteration.get()
  for i < p.iterations {
    p.operation(i)
    n := atomic.LoadInt64(&p.numToRemove)
    if n > 0 && atomic.LoadInt64(&p.numRoutines) > 1 {
      atomic.AddInt64(&p.numToRemove, -1)
      atomic.AddInt64(&p.numRoutines, -1)
      break
    } else if n > 0 {
      atomic.AddInt64(&p.numToRemove, -1)
    }
    i = p.iteration.add(1)
  }
Each load, add and safeInt call is its own step; the short circuit of the
conjunction means numRoutines is only loaded when the loaded n was
positive. -/
def vpPhaseStep (N : ℕ) (s : VPState) (w : ℕ) (ph : WPhase) : VPState :=
  match ph with
  | WPhase.initGet =>
      { s with workers := s.workers.set w (WPhase.checkLoop s.iteration),
               dispLog := s.dispLog ++ [s.iteration] }
  | WPhase.checkLoop i =>
      if i < N then { s with workers := s.workers.set w (WPhase.atOp i) }
      else { s with workers := s.workers.set w WPhase.exited }
  | WPhase.atOp i =>
      { s with workers := s.workers.set w (WPhase.loadRemove i),
               opLog := s.opLog ++ [i] }
  | WPhase.loadRemove i =>
      if 0 < s.numToRemove then
        { s with workers := s.workers.set w (WPhase.checkRoutines i) }
      else
        { s with workers := s.workers.set w (WPhase.claimNext i) }
  | WPhase.checkRoutines i =>
      if 1 < s.numRoutines then
        { s with workers := s.workers.set w (WPhase.decRemoveExit i) }
      else
        { s with workers := s.workers.set w (WPhase.decRemoveStay i) }
  | WPhase.decRemoveExit i =>
      { s with numToRemove := s.numToRemove - 1,
               workers := s.workers.set w (WPhase.decRoutinesExit i) }
  | WPhase.decRoutinesExit _ =>
      { s with numRoutines := s.numRoutines - 1,
               workers := s.workers.set w WPhase.exited }
  | WPhase.decRemoveStay i =>
      { s with numToRemove := s.numToRemove - 1,
               workers := s.workers.set w (WPhase.claimNext i) }
  | WPhase.claimNext _ =>
      { s with iteration := s.iteration + 1,
               workers := s.workers.set w (WPhase.checkLoop (s.iteration + 1)),
               dispLog := s.dispLog ++ [s.iteration + 1] }
  | WPhase.exited => s

/-- One scheduled worker step of VariableProcess. -/
def vpWorkerStep (N : ℕ) (s : VPState) (w : ℕ) : VPState :=
  match s.workers[w]? with
  | none => s
  | some ph => vpPhaseStep N s w ph

/-- Transcription of the counter arithmetic of
VariableProcess.optimizeNumRoutines (src/variableprocess.go lines
225-268) as a function of the controller output u and the observed
counters; returns the new numRoutines, the new numToRemove and how many
goroutines are spawned:
  m := int(math.Ceil(u))
  if m > p.maxRoutines.value { m = p.maxRoutines.value }
  n := m - routines
  if n == 0 { } else if n > 0 { numRoutines += n; spawn n }
  else if n < 0 { if routines > 1 { atomic.StoreInt64(&p.numToRemove, -n) } }
-/
def optimizeNumRoutines (maxRoutines : ℤ) (u : ℚ) (routines numToRemove : ℤ) :
    ℤ × ℤ × ℕ :=
  let m0 : ℤ := Int.ceil u
  let m : ℤ := if m0 > maxRoutines then maxRoutines else m0
  let n : ℤ := m - routines
  if n = 0 then (routines, numToRemove, 0)
  else if 0 < n then (routines + n, numToRemove, n.toNat)
  else if 1 < routines then (routines, -n, 0)
  else (routines, numToRemove, 0)

/-- Optimization tick exactly as the claim words it (claim C4, from
spec.md 4.E): desired is the controller output rounded to the nearest
integer (Go math.Round rounds halves away from zero) and clamped to the
interval from 1 to max_workers; a negative delta always replaces
num_to_remove with its absolute value. This definition follows the words
of the claim and exists only to be compared with optimizeNumRoutines,
which is transcribed from the code. -/
def optimizeNumRoutinesClaimStated (maxRoutines : ℤ) (u : ℚ)
    (routines numToRemove : ℤ) : ℤ × ℤ × ℕ :=
  let rounded : ℤ := if 0 ≤ u then Int.floor (u + 1/2) else Int.ceil (u - 1/2)
  let desired : ℤ := max 1 (min rounded maxRoutines)
  let delta : ℤ := desired - routines
  if delta < 0 then (routines, -delta, 0)
  else if 0 < delta then (routines + delta, numToRemove, delta.toNat)
  else (routines, numToRemove, 0)

/-- One optimization tick of VariableProcess, driven by the controller
output u for that tick (the controller output ranges over the rationals
as the CPU samples vary, so the schedule supplies it directly). New
goroutines enter at their initial iteration.get(). -/
def vpTick (maxRoutines : ℤ) (u : ℚ) (s : VPState) : VPState :=
  let r := optimizeNumRoutines maxRoutines u s.numRoutines s.numToRemove
  { s with numRoutines := r.1, numToRemove := r.2.1,
           workers := s.workers ++ List.replicate r.2.2 WPhase.initGet }

/-- Modelled from the spec: VariableProcess.Stop does not appear in the
sources (only the tests in src/unnamed/part_013 call it); spec.md section
4.E Stop semantics says Stop() sets iteration := iterations atomically. -/
def vpStop (N : ℕ) (s : VPState) : VPState :=
  { s with iteration := N }

/-- Scheduled event for the VariableProcess machine: an atomic step of
worker w, an optimization tick whose controller output is u, or a Stop
call. -/
inductive VPEvent where
  | worker (w : ℕ)
  | tick (u : ℚ)
  | stop
deriving DecidableEq

/-- One scheduled step of the VariableProcess machine. -/
def vpStep (N : ℕ) (maxRoutines : ℤ) (s : VPState) (e : VPEvent) : VPState :=
  match e with
  | VPEvent.worker w => vpWorkerStep N s w
  | VPEvent.tick u => vpTick maxRoutines u s
  | VPEvent.stop => vpStop N s

/-- Initial state of VariableProcess.Execute (src/variableprocess.go lines
96-126 with reset, lines 177-190): iteration 0, numRoutines 1,
numToRemove 0, and a single goroutine about to run runRoutine. -/
def vpInit : VPState :=
  { iteration := 0, numRoutines := 1, numToRemove := 0,
    workers := [WPhase.initGet], dispLog := [], opLog := [] }

/-- Run VariableProcess.Execute under an explicit schedule of events. -/
def vpRun (N : ℕ) (maxRoutines : ℤ) (events : List VPEvent) : VPState :=
  events.foldl (vpStep N maxRoutines) vpInit

/-- Phase of a goroutine running the FixedProcess.runRoutine variant of
src/unnamed/part_006 (lines 61-69), whose claims go through
iteration.getAndAdd(1). -/
inductive FSPhase where
  | claim
  | hasClaim (i : ℕ)
  | exited
deriving DecidableEq

/-- State of an interleaved execution of the src/unnamed/part_006
FixedProcess: the shared safeInt iteration counter, the phase of each
goroutine and the indices passed to the operation. -/
structure FSState where
  iteration : ℕ
  workers : List FSPhase
  opLog : List ℕ
deriving DecidableEq

/-- Scheduled event for the part_006 FixedProcess machine: a worker step
or a Stop call. -/
inductive FSEvent where
  | worker (w : ℕ)
  | stop
deriving DecidableEq

/-- One atomic step of worker w of the part_006 FixedProcess when its
phase is ph. A claim step is iteration.getAndAdd(1); the method getAndAdd
is called by part_006 but absent from src/safeint.go, so it is modelled
from the spec: spec.md 4.D says each worker claims indices via
counter.add(1) - 1, that is the counter is atomically incremented and the
value before the increment is returned. A hasClaim step with i < N
invokes operation(i) and returns to the next claim; otherwise the worker
exits. -/
def fsPhaseStep (N : ℕ) (s : FSState) (w : ℕ) (ph : FSPhase) : FSState :=
  match ph with
  | FSPhase.claim =>
      { s with iteration := s.iteration + 1,
               workers := s.workers.set w (FSPhase.hasClaim s.iteration) }
  | FSPhase.hasClaim i =>
      if i < N then
        { s with opLog := s.opLog ++ [i],
                 workers := s.workers.set w FSPhase.claim }
      else
        { s with workers := s.workers.set w FSPhase.exited }
  | FSPhase.exited => s

/-- Transcription of FixedProcess.Stop (src/unnamed/part_006 lines 49-51):
p.iteration.set(p.iterations), and nothing else. -/
def fsStop (N : ℕ) (s : FSState) : FSState :=
  { s with iteration := N }

/-- One scheduled step of the part_006 FixedProcess machine. -/
def fsStep (N : ℕ) (s : FSState) (e : FSEvent) : FSState :=
  match e with
  | FSEvent.worker w =>
      match s.workers[w]? with
      | none => s
      | some ph => fsPhaseStep N s w ph
  | FSEvent.stop => fsStop N s

/-- Schedule exhibiting the shrink race of claim C2: the optimizer grows
the pool to two workers, both workers run the operation, a second tick
stores numToRemove = 1, and then both workers pass the two separate
atomic loads of the shrink check before either performs its decrements. -/
def shrinkRaceSchedule : List VPEvent :=
  [VPEvent.tick 2, VPEvent.worker 0, VPEvent.worker 1,
   VPEvent.worker 0, VPEvent.worker 1, VPEvent.worker 0, VPEvent.worker 1,
   VPEvent.tick 1,
   VPEvent.worker 0, VPEvent.worker 1, VPEvent.worker 0, VPEvent.worker 1,
   VPEvent.worker 0, VPEvent.worker 1, VPEvent.worker 0, VPEvent.worker 1]

/-- Embedding of the ticker object returned by time.NewTicker; only its
presence matters to the claims. -/
structure GoTicker where
  interval : ℚ
deriving DecidableEq

/-- Control fields of VariableProcess relevant to
SetOptimizationInterval (src/variableprocess.go lines 14-23): the
optimization interval and the ticker pointer, which is nil until
beginOptimizing first assigns it. -/
structure VPHandle where
  optimizationInterval : ℚ
  ticker : Option GoTicker
deriving DecidableEq

/-- A Go runtime panic observable from the embedded methods. -/
inductive GoPanic where
  | nilPointerDereference
deriving DecidableEq

/-- Transcription of NewVariableProcess (src/variableprocess.go lines
73-90) restricted to the fields of VPHandle: the ticker field is left at
its zero value nil. -/
def newVariableProcess (interval : ℚ) : VPHandle :=
  { optimizationInterval := interval, ticker := none }

/-- Transcription of VariableProcess.beginOptimizing
(src/variableprocess.go lines 194-199): assigns
p.ticker = time.NewTicker(p.optimizationInterval). It is started (on a
new goroutine) by Execute at line 110 and by SetOptimizationInterval. -/
def beginOptimizing (p : VPHandle) : VPHandle :=
  { p with ticker := some { interval := p.optimizationInterval } }

/-- Transcription of VariableProcess.SetOptimizationInterval
(src/variableprocess.go lines 141-145): it first calls p.ticker.Stop().
When p.ticker is nil, time.Ticker.Stop dereferences its nil receiver and
the call panics; otherwise the interval is replaced and beginOptimizing
is restarted. -/
def setOptimizationInterval (p : VPHandle) (interval : ℚ) :
    Except GoPanic VPHandle :=
  match p.ticker with
  | none => Except.error GoPanic.nilPointerDereference
  | some _ =>
      Except.ok (beginOptimizing { p with optimizationInterval := interval })

theorem syncedLoop_eq (n : ℕ) : ∀ i : ℕ, 1 ≤ i →
    syncedLoop (i + n) i = List.range' (i - 1) n := by
  induction n with
  | zero =>
      intro i hi
      rw [syncedLoop]
      simp
  | succ n ih =>
      intro i hi
      rw [syncedLoop]
      rw [dif_pos (by omega : i < i + (n + 1))]
      have h2 := ih (i + 1) (by omega)
      rw [show i + 1 + n = i + (n + 1) by omega] at h2
      rw [h2, List.range'_succ]
      rw [show i + 1 - 1 = i - 1 + 1 by omega]

theorem fpStep_disp (N : ℕ) (s : FPState) (w : ℕ)
    (h1 : ∀ v ∈ s.dispLog, v ≤ s.counter)
    (h2 : s.dispLog.Pairwise (· ≤ ·)) :
    (∀ v ∈ (fpStep N s w).dispLog, v ≤ (fpStep N s w).counter) ∧
    (fpStep N s w).dispLog.Pairwise (· ≤ ·) := by
  unfold fpStep
  cases hw : s.workers[w]? with
  | none => exact ⟨h1, h2⟩
  | some ph =>
      cases ph with
      | start =>
          simp only [fpPhaseStep]
          constructor
          · intro v hv
            rcases List.mem_append.mp hv with hv | hv
            · exact h1 v hv
            · simp only [List.mem_singleton] at hv
              omega
          · rw [List.pairwise_append]
            refine ⟨h2, List.pairwise_singleton _ _, ?_⟩
            intro a ha b hb
            simp only [List.mem_singleton] at hb
            subst hb
            exact h1 a ha
      | running i =>
          simp only [fpPhaseStep]
          split_ifs with hi
          · dsimp only
            constructor
            · intro v hv
              rcases List.mem_append.mp hv with hv | hv
              · exact Nat.le_succ_of_le (h1 v hv)
              · simp only [List.mem_singleton] at hv
                omega
            · rw [List.pairwise_append]
              refine ⟨h2, List.pairwise_singleton _ _, ?_⟩
              intro a ha b hb
              simp only [List.mem_singleton] at hb
              subst hb
              exact Nat.le_succ_of_le (h1 a ha)
          · exact ⟨h1, h2⟩
      | exited => exact ⟨h1, h2⟩

theorem fpRun_disp (N R : ℕ) (sched : List ℕ) :
    (fpRun N R sched).dispLog.Pairwise (· ≤ ·) := by
  suffices h : ∀ (l : List ℕ) (s : FPState),
      (∀ v ∈ s.dispLog, v ≤ s.counter) → s.dispLog.Pairwise (· ≤ ·) →
      (∀ v ∈ (l.foldl (fpStep N) s).dispLog,
        v ≤ (l.foldl (fpStep N) s).counter) ∧
      (l.foldl (fpStep N) s).dispLog.Pairwise (· ≤ ·) by
    exact (h sched (fpInit R) (by simp [fpInit]) (by simp [fpInit])).2
  intro l
  induction l with
  | nil => exact fun s hs1 hs2 => ⟨hs1, hs2⟩
  | cons a l ih =>
      intro s hs1 hs2
      have hstep := fpStep_disp N s a hs1 hs2
      exact ih (fpStep N s a) hstep.1 hstep.2

theorem vpStep_disp (N : ℕ) (maxR : ℤ) (s : VPState) (e : VPEvent)
    (he : e ≠ VPEvent.stop)
    (h1 : ∀ v ∈ s.dispLog, v ≤ s.iteration)
    (h2 : s.dispLog.Pairwise (· ≤ ·)) :
    (∀ v ∈ (vpStep N maxR s e).dispLog, v ≤ (vpStep N maxR s e).iteration) ∧
    (vpStep N maxR s e).dispLog.Pairwise (· ≤ ·) := by
  cases e with
  | stop => exact absurd rfl he
  | tick u => exact ⟨h1, h2⟩
  | worker w =>
      simp only [vpStep, vpWorkerStep]
      cases hw : s.workers[w]? with
      | none => exact ⟨h1, h2⟩
      | some ph =>
          cases ph with
          | initGet =>
              simp only [vpPhaseStep]
              constructor
              · intro v hv
                rcases List.mem_append.mp hv with hv | hv
                · exact h1 v hv
                · simp only [List.mem_singleton] at hv
                  omega
              · rw [List.pairwise_append]
                refine ⟨h2, List.pairwise_singleton _ _, ?_⟩
                intro a ha b hb
                simp only [List.mem_singleton] at hb
                subst hb
                exact h1 a ha
          | checkLoop i =>
              simp only [vpPhaseStep]
              split_ifs <;> exact ⟨h1, h2⟩
          | atOp i => exact ⟨h1, h2⟩
          | loadRemove i =>
              simp only [vpPhaseStep]
              split_ifs <;> exact ⟨h1, h2⟩
          | checkRoutines i =>
              simp only [vpPhaseStep]
              split_ifs <;> exact ⟨h1, h2⟩
          | decRemoveExit i => exact ⟨h1, h2⟩
          | decRoutinesExit i => exact ⟨h1, h2⟩
          | decRemoveStay i => exact ⟨h1, h2⟩
          | claimNext i =>
              simp only [vpPhaseStep]
              constructor
              · intro v hv
                rcases List.mem_append.mp hv with hv | hv
                · exact Nat.le_succ_of_le (h1 v hv)
                · simp only [List.mem_singleton] at hv
                  omega
              · rw [List.pairwise_append]
                refine ⟨h2, List.pairwise_singleton _ _, ?_⟩
                intro a ha b hb
                simp only [List.mem_singleton] at hb
                subst hb
                exact Nat.le_succ_of_le (h1 a ha)
          | exited => exact ⟨h1, h2⟩

theorem vpRun_disp (N : ℕ) (maxR : ℤ) (events : List VPEvent)
    (h : VPEvent.stop ∉ events) :
    (vpRun N maxR events).dispLog.Pairwise (· ≤ ·) := by
  suffices hgen : ∀ (l : List VPEvent) (s : VPState), VPEvent.stop ∉ l →
      (∀ v ∈ s.dispLog, v ≤ s.iteration) → s.dispLog.Pairwise (· ≤ ·) →
      (∀ v ∈ (l.foldl (vpStep N maxR) s).dispLog,
        v ≤ (l.foldl (vpStep N maxR) s).iteration) ∧
      (l.foldl (vpStep N maxR) s).dispLog.Pairwise (· ≤ ·) by
    exact (hgen events vpInit h (by simp [vpInit]) (by simp [vpInit])).2
  intro l
  induction l with
  | nil => exact fun s _ hs1 hs2 => ⟨hs1, hs2⟩
  | cons a l ih =>
      intro s hl hs1 hs2
      have ha : a ≠ VPEvent.stop := by
        intro hcontra
        exact hl (by rw [hcontra]; exact List.mem_cons_self _ _)
      have hstep := vpStep_disp N maxR s a ha hs1 hs2
      exact ih (vpStep N maxR s a)
        (fun hcontra => hl (List.mem_cons_of_mem _ hcontra)) hstep.1 hstep.2

/-- C1: the claim fails on the code. Each runRoutine begins with a bare
counter get() that does not claim an index, so with two workers and one
iteration there is an interleaving of src/fixedprocess.go in which both
goroutines read the counter at 0 before either calls add(1) and op(0) is
invoked twice; the same duplication occurs in src/variableprocess.go for
a worker spawned by the optimizer. The exactly-once completeness the
claim and spec.md state is the documented intent (the repository tests
are named Completeness, and the later FixedProcess variant in
src/unnamed/part_006 claims with getAndAdd(1)), so this is a code bug. -/
theorem C1_initial_get_duplicates_an_index :
    (fpRun 1 2 [0, 1, 0, 1]).opLog = [0, 0] ∧
    (vpRun 1 20 [VPEvent.tick 2, VPEvent.worker 0, VPEvent.worker 1,
      VPEvent.worker 0, VPEvent.worker 0, VPEvent.worker 1,
      VPEvent.worker 1]).opLog = [0, 0] := by
  decide

/-- C2: the claim fails on the code. The shrink check of
src/variableprocess.go lines 208-215 loads numToRemove and numRoutines
with two independent atomic loads, so with numRoutines = 2 and
numToRemove = 1 both workers can observe numRoutines above 1 before
either decrements: both take the exit branch and the pool drops to 0
(and numToRemove to -1). spec.md sections 5 and 9 require the compound
update over the pair to be atomic and name exactly this pitfall, so this
is a code bug. -/
theorem C2_pool_drops_to_zero :
    (vpRun 1 20 shrinkRaceSchedule).numRoutines = 0 ∧
    (vpRun 1 20 shrinkRaceSchedule).numToRemove = -1 := by
  decide

/-- C3: the claim fails on the code. controller.next in
src/unnamed/part_009 filters the output as
u = OutputResponse * u_raw + (OutputResponse - 1) * previousOutput, a
sign flip of the low-pass form
OutputResponse * u_raw + (1 - OutputResponse) * previousOutput that the
claim states and that the error filter one line above uses; with
Kp = 1, Ki = Kd = 0, ErrorResponse = 1, OutputResponse = 1/2, cpuCount 1
and two samples of input 0, the code returns 1/4 where the stated
formula gives 3/4 (all intermediate values are exact dyadic rationals,
so the float64 computation incurs no rounding). -/
theorem C3_output_filter_sign_flipped :
    (Controller.next ⟨0, 0, 0, 1, ⟨1, 0, 0, 1, 1/2⟩⟩ 0).1 = 1/2 ∧
    (Controller.next
      (Controller.next ⟨0, 0, 0, 1, ⟨1, 0, 0, 1, 1/2⟩⟩ 0).2.2 0).1 = 1/4 ∧
    (Controller.nextSpecStated
      (Controller.next ⟨0, 0, 0, 1, ⟨1, 0, 0, 1, 1/2⟩⟩ 0).2.2 0).1 = 3/4 := by
  norm_num [Controller.next, Controller.nextSpecStated]

/-- C4 as amended: on each optimization tick the target worker count m is
the ceiling (not the rounding) of the controller output, clamped above by
max_workers but not below by 1; when m exceeds numRoutines the pool grows
to m and m - numRoutines workers are spawned; when m is below numRoutines
and more than one worker runs, numToRemove is replaced (not incremented)
with numRoutines - m; with a single worker a negative delta changes
nothing. -/
theorem C4_tick_uses_ceil_and_upper_clamp (maxR : ℤ) (u : ℚ) (r t : ℤ) :
    (min (Int.ceil u) maxR > r →
      optimizeNumRoutines maxR u r t =
        (min (Int.ceil u) maxR, t, (min (Int.ceil u) maxR - r).toNat)) ∧
    (min (Int.ceil u) maxR = r →
      optimizeNumRoutines maxR u r t = (r, t, 0)) ∧
    (min (Int.ceil u) maxR < r → 1 < r →
      optimizeNumRoutines maxR u r t = (r, r - min (Int.ceil u) maxR, 0)) ∧
    (min (Int.ceil u) maxR < r → r ≤ 1 →
      optimizeNumRoutines maxR u r t = (r, t, 0)) := by
  have hm : min (Int.ceil u) maxR =
      if Int.ceil u > maxR then maxR else Int.ceil u := by
    rcases le_or_lt (Int.ceil u) maxR with hc | hc
    · rw [min_eq_left hc, if_neg (not_lt.mpr hc)]
    · rw [min_eq_right hc.le, if_pos hc]
  rw [hm]
  refine ⟨fun h => ?_, fun h => ?_, fun h h1 => ?_, fun h h1 => ?_⟩ <;>
    · simp only [optimizeNumRoutines]
      split_ifs at h ⊢ <;>
        simp only [Prod.mk.injEq, and_true, true_and] <;> omega

/-- Witness for C4_tick_uses_ceil_and_upper_clamp at maxR = 20, u = 5/4,
r = 3, t = 7: the shrink branch replaces numToRemove with 1. -/
theorem C4_tick_uses_ceil_and_upper_clamp_witness :
    min (Int.ceil (5 / 4 : ℚ)) 20 < 3 ∧ 1 < 3 ∧
    optimizeNumRoutines 20 (5 / 4) 3 7 =
      (3, 3 - min (Int.ceil (5 / 4 : ℚ)) 20, 0) := by
  have hc : Int.ceil (5 / 4 : ℚ) = 2 := by
    rw [Int.ceil_eq_iff]
    norm_num
  refine ⟨by rw [hc]; norm_num, by norm_num, ?_⟩
  exact (C4_tick_uses_ceil_and_upper_clamp 20 (5 / 4) 3 7).2.2.1
    (by rw [hc]; norm_num) (by norm_num)

/-- C4: counterexample to the claim as stated. At controller output
u = 5/4 (exact in float64) with max_workers = 20, one worker and no
pending shrink, the code takes m = ceil(5/4) = 2 and spawns a worker,
while the claim says desired = clamp(round(5/4)) = 1 and delta = 0, so
nothing happens. -/
theorem C4_round_clamp_counterexample :
    optimizeNumRoutines 20 (5 / 4) 1 0 = (2, 0, 1) ∧
    optimizeNumRoutinesClaimStated 20 (5 / 4) 1 0 = (1, 0, 0) := by
  have hc : Int.ceil (5 / 4 : ℚ) = 2 := by
    rw [Int.ceil_eq_iff]
    norm_num
  have hf : Int.floor (5 / 4 + 1 / 2 : ℚ) = 1 := by
    rw [Int.floor_eq_iff]
    norm_num
  constructor
  · norm_num [optimizeNumRoutines, hc]
  · norm_num [optimizeNumRoutinesClaimStated, hf]

/-- C6: the claim fails on the code. reporter.usage divides
clockSeconds by actualSeconds with no guard, so when the wall-clock
delta is zero (usage called twice in the same tick) and any CPU time
elapsed, the Go float64 division returns +Inf with elapsed seconds 0,
not the finite pair (0, positive epsilon) the claim states: here the
reporter last sampled at time 5 and tick 0, and is sampled again at
time 5 with tick 1000000. -/
theorem C6_usage_divides_by_zero :
    (Reporter.usage ⟨5, 0⟩ 1000000 5).1 = (GoFloat.posInf, 0) := by
  norm_num [Reporter.usage, goDiv, clocksPerSec]

/-- C7: the claim fails on the code. controller.reset in
src/unnamed/part_009 zeroes previousError and totalError and refreshes
cpuCount but does not touch previousOutput, so a reset controller is
distinguishable from a fresh one: after two samples previousOutput is
1/4, it survives reset, and the next output is 3/8 where a fresh
controller with the same configuration returns 1/2. -/
theorem C7_reset_keeps_previousOutput :
    (Controller.reset
      (Controller.next
        (Controller.next ⟨0, 0, 0, 1, ⟨1, 0, 0, 1, 1/2⟩⟩ 0).2.2 0).2.2
      1).previousOutput = 1/4 ∧
    (Controller.next
      (Controller.reset
        (Controller.next
          (Controller.next ⟨0, 0, 0, 1, ⟨1, 0, 0, 1, 1/2⟩⟩ 0).2.2 0).2.2
        1) 0).1 = 3/8 ∧
    (Controller.next ⟨0, 0, 0, 1, ⟨1, 0, 0, 1, 1/2⟩⟩ 0).1 = 1/2 := by
  norm_num [Controller.next, Controller.reset]

/-- C8: counterexample to the claim as stated. A worker spawned by the
optimizer starts with a bare iteration.get(), so right after the first
grow tick both workers are handed the same index 0: a worker receives an
index equal to one already dispensed. -/
theorem C8_equal_index_dispensed_twice :
    (vpRun 1 20 [VPEvent.tick 2, VPEvent.worker 0,
      VPEvent.worker 1]).dispLog = [0, 0] := by
  decide

/-- C8 as amended: in any Execute run without Stop, the sequence of
indices handed out by the shared counter is non-decreasing, for the
variable-width process (under every interleaving of worker steps and
optimizer ticks, including workers spawned mid-run) and for the
fixed-width process; it is not strictly increasing, because a worker
entering the loop is handed the current counter value by its initial
get(), which can equal an index already dispensed. -/
theorem C8_dispensed_indices_nondecreasing (N R : ℕ) (maxR : ℤ)
    (events : List VPEvent) (sched : List ℕ)
    (h : VPEvent.stop ∉ events) :
    (vpRun N maxR events).dispLog.Pairwise (· ≤ ·) ∧
    (fpRun N R sched).dispLog.Pairwise (· ≤ ·) :=
  ⟨vpRun_disp N maxR events h, fpRun_disp N R sched⟩

/-- Witness for C8_dispensed_indices_nondecreasing on the schedule of the
counterexample run. -/
theorem C8_dispensed_indices_nondecreasing_witness :
    VPEvent.stop ∉ [VPEvent.tick 2, VPEvent.worker 0, VPEvent.worker 1] ∧
    ((vpRun 1 20 [VPEvent.tick 2, VPEvent.worker 0,
        VPEvent.worker 1]).dispLog.Pairwise (· ≤ ·) ∧
      (fpRun 1 2 [0, 1, 0, 1]).dispLog.Pairwise (· ≤ ·)) :=
  ⟨by decide,
    C8_dispensed_indices_nondecreasing 1 2 20
      [VPEvent.tick 2, VPEvent.worker 0, VPEvent.worker 1]
      [0, 1, 0, 1] (by decide)⟩

/-- C5: Stop sets the iteration counter to the total iteration count and
changes nothing else, for the fixed process of src/unnamed/part_006 and
for the variable process (whose Stop is modelled from the spec); the
counter never descends below the sentinel again, and a worker that
finishes its current operation and performs its next claim in any state
with the sentinel in place receives a claim at or past the total count
and exits on its next loop check. -/
theorem C5_stop_sentinel_terminates_workers (N : ℕ) (maxR : ℤ) :
    (∀ s : FSState, fsStep N s FSEvent.stop = { s with iteration := N }) ∧
    (∀ s : VPState, vpStep N maxR s VPEvent.stop = { s with iteration := N }) ∧
    (∀ (s : FSState) (e : FSEvent), N ≤ s.iteration →
      N ≤ (fsStep N s e).iteration) ∧
    (∀ (s : VPState) (e : VPEvent), N ≤ s.iteration →
      N ≤ (vpStep N maxR s e).iteration) ∧
    (∀ (s : FSState) (w : ℕ), N ≤ s.iteration →
      s.workers[w]? = some FSPhase.claim →
      (fsStep N (fsStep N s (FSEvent.worker w))
        (FSEvent.worker w)).workers[w]? = some FSPhase.exited) ∧
    (∀ (s : VPState) (w : ℕ), N ≤ s.iteration →
      s.workers[w]? = some WPhase.initGet →
      (vpStep N maxR (vpStep N maxR s (VPEvent.worker w))
        (VPEvent.worker w)).workers[w]? = some WPhase.exited) ∧
    (∀ (s : VPState) (w i : ℕ), N ≤ s.iteration →
      s.workers[w]? = some (WPhase.claimNext i) →
      (vpStep N maxR (vpStep N maxR s (VPEvent.worker w))
        (VPEvent.worker w)).workers[w]? = some WPhase.exited) := by
  refine ⟨fun s => rfl, fun s => rfl, ?_, ?_, ?_, ?_, ?_⟩
  · intro s e hN
    cases e with
    | stop => exact le_refl N
    | worker w =>
        simp only [fsStep]
        cases hw : s.workers[w]? with
        | none => exact hN
        | some ph =>
            cases ph with
            | claim => exact Nat.le_succ_of_le hN
            | hasClaim i =>
                simp only [fsPhaseStep]
                split_ifs <;> exact hN
            | exited => exact hN
  · intro s e hN
    cases e with
    | stop => exact le_refl N
    | tick u => exact hN
    | worker w =>
        simp only [vpStep, vpWorkerStep]
        cases hw : s.workers[w]? with
        | none => exact hN
        | some ph =>
            cases ph with
            | initGet => exact hN
            | checkLoop i =>
                simp only [vpPhaseStep]
                split_ifs <;> exact hN
            | atOp i => exact hN
            | loadRemove i =>
                simp only [vpPhaseStep]
                split_ifs <;> exact hN
            | checkRoutines i =>
                simp only [vpPhaseStep]
                split_ifs <;> exact hN
            | decRemoveExit i => exact hN
            | decRoutinesExit i => exact hN
            | decRemoveStay i => exact hN
            | claimNext i => exact Nat.le_succ_of_le hN
            | exited => exact hN
  · intro s w hN hw
    have hlen : w < s.workers.length := by
      cases hlt : decide (w < s.workers.length) with
      | true => exact of_decide_eq_true hlt
      | false =>
          rw [List.getElem?_eq_none (le_of_not_lt (of_decide_eq_false hlt))]
            at hw
          cases hw
    simp only [fsStep, hw, fsPhaseStep]
    have h2 : ((s.workers.set w (FSPhase.hasClaim s.iteration)))[w]? =
        some (FSPhase.hasClaim s.iteration) :=
      List.getElem?_set_eq_of_lt _ (by simpa using hlen)
    simp only [h2, fsPhaseStep, if_neg (not_lt.mpr hN)]
    exact List.getElem?_set_eq_of_lt _ (by simpa using hlen)
  · intro s w hN hw
    have hlen : w < s.workers.length := by
      cases hlt : decide (w < s.workers.length) with
      | true => exact of_decide_eq_true hlt
      | false =>
          rw [List.getElem?_eq_none (le_of_not_lt (of_decide_eq_false hlt))]
            at hw
          cases hw
    simp only [vpStep, vpWorkerStep, hw, vpPhaseStep]
    have h2 : ((s.workers.set w (WPhase.checkLoop s.iteration)))[w]? =
        some (WPhase.checkLoop s.iteration) :=
      List.getElem?_set_eq_of_lt _ (by simpa using hlen)
    simp only [h2, vpPhaseStep, if_neg (not_lt.mpr hN)]
    exact List.getElem?_set_eq_of_lt _ (by simpa using hlen)
  · intro s w i hN hw
    have hlen : w < s.workers.length := by
      cases hlt : decide (w < s.workers.length) with
      | true => exact of_decide_eq_true hlt
      | false =>
          rw [List.getElem?_eq_none (le_of_not_lt (of_decide_eq_false hlt))]
            at hw
          cases hw
    simp only [vpStep, vpWorkerStep, hw, vpPhaseStep]
    have h2 : ((s.workers.set w (WPhase.checkLoop (s.iteration + 1))))[w]? =
        some (WPhase.checkLoop (s.iteration + 1)) :=
      List.getElem?_set_eq_of_lt _ (by simpa using hlen)
    simp only [h2, vpPhaseStep, if_neg (by omega : ¬s.iteration + 1 < N)]
    exact List.getElem?_set_eq_of_lt _ (by simpa using hlen)

/-- Witness for C5_stop_sentinel_terminates_workers: a part_006 worker
claiming after Stop on a two-iteration run exits within two of its
steps. -/
theorem C5_stop_sentinel_terminates_workers_witness :
    2 ≤ (⟨2, [FSPhase.claim], []⟩ : FSState).iteration ∧
    (⟨2, [FSPhase.claim], []⟩ : FSState).workers[0]? = some FSPhase.claim ∧
    (fsStep 2 (fsStep 2 ⟨2, [FSPhase.claim], []⟩ (FSEvent.worker 0))
      (FSEvent.worker 0)).workers[0]? = some FSPhase.exited :=
  ⟨by decide, by decide,
    (C5_stop_sentinel_terminates_workers 2 5).2.2.2.2.1
      ⟨2, [FSPhase.claim], []⟩ 0 (by decide) (by decide)⟩

/-- C9: SyncedProcess.Execute with one routine claims i = nextCount()
(which pre-increments, so the first claim is 1), runs op(i - 1) while
i < iterations, and therefore invokes op exactly on 0..N-2, never on the
final index N-1; Execute(1, op) invokes op on nothing. -/
theorem C9_synced_single_skips_last_index (N : ℕ) (h : 1 ≤ N) :
    syncedExecuteSingle N = List.range (N - 1) ∧
    (N - 1) ∉ syncedExecuteSingle N := by
  have h1 : syncedExecuteSingle N = List.range' 0 (N - 1) := by
    have h2 := syncedLoop_eq (N - 1) 1 (le_refl 1)
    rw [show 1 + (N - 1) = N by omega] at h2
    simpa [syncedExecuteSingle] using h2
  refine ⟨by rw [h1, List.range_eq_range'], ?_⟩
  rw [h1, ← List.range_eq_range']
  simp

/-- Witness for C9_synced_single_skips_last_index at N = 3. -/
theorem C9_synced_single_skips_last_index_witness :
    1 ≤ 3 ∧ (syncedExecuteSingle 3 = List.range (3 - 1) ∧
      (3 - 1) ∉ syncedExecuteSingle 3) :=
  ⟨by decide, C9_synced_single_skips_last_index 3 (by decide)⟩

/-- C10: SetOptimizationInterval immediately calls p.ticker.Stop(); on a
process on which Execute has never run the ticker field is still nil and
the call panics with a nil pointer dereference, while beginOptimizing,
started by Execute, assigns the ticker, after which
SetOptimizationInterval succeeds. -/
theorem C10_set_interval_requires_started_ticker :
    (∀ d d2 : ℚ, setOptimizationInterval (newVariableProcess d) d2 =
      Except.error GoPanic.nilPointerDereference) ∧
    (∀ p : VPHandle, (beginOptimizing p).ticker.isSome = true) ∧
    (∀ (p : VPHandle) (d : ℚ), p.ticker.isSome = true →
      setOptimizationInterval p d =
        Except.ok (beginOptimizing { p with optimizationInterval := d })) := by
  refine ⟨fun d d2 => rfl, fun p => rfl, fun p d h => ?_⟩
  obtain ⟨pi, pt⟩ := p
  cases pt with
  | none => simp at h
  | some t => rfl

/-- Witness for C10_set_interval_requires_started_ticker on a handle
whose ticker has been assigned. -/
theorem C10_set_interval_requires_started_ticker_witness :
    setOptimizationInterval ⟨3, some ⟨3⟩⟩ 7 =
      Except.ok (beginOptimizing
        { (⟨3, some ⟨3⟩⟩ : VPHandle) with optimizationInterval := 7 }) :=
  C10_set_interval_requires_started_ticker.2.2 ⟨3, some ⟨3⟩⟩ 7 rfl

end Parallel
